import Mathlib

/-!
Verification of the cleaning module of `powerplantmatching`
(`powerplantmatching/cleaning.py`): a shallow embedding of the
duplicate-group resolver (`cliques`), the aggregator
(`prop_for_groups` / `aggregate_units`), the name normalizer
(`clean_powerplantname`), the attribute classifiers
(`gather_fueltype_info`, `gather_technology_info`, `gather_set_info`)
and the `clean_single` pipeline, together with theorems settling the
specification claims about them.

Conventions of the embedding:
* a pandas `DataFrame` row becomes a `Row` structure; nullable cells
  (`NaN`) become `Option` values; float columns become `ℚ` (all claim
  inputs are exactly representable, so rational arithmetic is faithful);
* `df.index` (a `RangeIndex` after `reset_index`) becomes a `List Nat`;
* the external duke matcher, the cache file and the filesystem are
  modelled as explicit parameters;
* fallible code returns `Except String`.
-/

namespace PPM

/-! ### Duplicate-Group Resolver (`cliques`, cleaning.py lines 157-182)

`cliques` builds a directed graph `G` with one node per `df.index`
entry plus all edge endpoints, reduces it to the undirected graph `H`
keeping only reciprocal edges (`G.to_undirected(reciprocal=True)`),
enumerates the maximal cliques of `H` and assigns, in enumeration
order, the clique index `i` to every member of clique `i`
(`grouped.loc[inds] = i`, a destructive overwrite). -/

/-- Reciprocal adjacency of the undirected graph `H`: an (unordered)
edge survives `to_undirected(reciprocal=True)` iff it was asserted in
both directions; `find_cliques` ignores self loops, hence `u ≠ v`. -/
def adjP (edges : List (Nat × Nat)) (u v : Nat) : Prop :=
  u ≠ v ∧ (u, v) ∈ edges ∧ (v, u) ∈ edges

instance (edges : List (Nat × Nat)) (u v : Nat) : Decidable (adjP edges u v) := by
  unfold adjP; infer_instance

/-- Node set of `G`: `add_nodes_from(df.index)` followed by
`add_edges_from`, which inserts still-missing endpoints, in order. -/
def gNodes (dfIndex : List Nat) (edges : List (Nat × Nat)) : List Nat :=
  (dfIndex ++ edges.flatMap (fun e => [e.1, e.2])).dedup

/-- A clique of `H`: all pairs of distinct members are adjacent. -/
def isClique (edges : List (Nat × Nat)) (l : List Nat) : Prop :=
  ∀ u ∈ l, ∀ v ∈ l, u = v ∨ adjP edges u v

instance (edges : List (Nat × Nat)) (l : List Nat) : Decidable (isClique edges l) := by
  unfold isClique; infer_instance

/-- `m` extends the clique `l`: it is a new node adjacent to all of `l`. -/
def canExtend (edges : List (Nat × Nat)) (l : List Nat) (m : Nat) : Prop :=
  m ∉ l ∧ ∀ x ∈ l, adjP edges m x

instance (edges : List (Nat × Nat)) (l : List Nat) (m : Nat) :
    Decidable (canExtend edges l m) := by
  unfold canExtend; infer_instance

/-- A maximal clique among the nodes `gN`. -/
def isMaxCliqueIn (gN : List Nat) (edges : List (Nat × Nat)) (l : List Nat) : Prop :=
  isClique edges l ∧ ∀ m ∈ gN, ¬ canExtend edges l m

instance (gN : List Nat) (edges : List (Nat × Nat)) (l : List Nat) :
    Decidable (isMaxCliqueIn gN edges l) := by
  unfold isMaxCliqueIn; infer_instance

/-- The maximal-clique enumeration of `nx.find_cliques(H)`: the set of
enumerated cliques is exactly the nonempty maximal cliques of `H`; the
library's emission order is unspecified, modelled here by the
`sublists` order of the node list. -/
def maximalCliques (gN : List Nat) (edges : List (Nat × Nat)) : List (List Nat) :=
  gN.sublists.filter (fun l => decide (l ≠ [] ∧ isMaxCliqueIn gN edges l))

/-- The assignment loop `for i, inds in enumerate(find_cliques(H)):
grouped.loc[inds] = i`: the series (a total map on node ids, `none`
for the initial `np.nan`) is threaded through the iterations, each of
which overwrites the entries of clique `i` with `i`. -/
def assignCliques (i : Nat) (cl : List (List Nat)) (g : Nat → Option Nat) :
    Nat → Option Nat :=
  match cl with
  | [] => g
  | c :: rest => assignCliques (i + 1) rest (fun n => if n ∈ c then some i else g n)

/-- Final content of the `grouped` series for node `n`. -/
def groupedOf (cl : List (List Nat)) (n : Nat) : Option Nat :=
  assignCliques 0 cl (fun _ => none) n

/-- Index of the last clique of `cl` containing `n` (specification
helper for the overwrite semantics of the assignment loop). -/
def lastPos (n : Nat) (cl : List (List Nat)) : Option Nat :=
  match cl with
  | [] => none
  | c :: rest =>
      match lastPos n rest with
      | some j => some (j + 1)
      | none => if n ∈ c then some 0 else none

/-- Index of the first clique of `cl` containing `n` (what the claim
C2 asserts the loop computes). -/
def firstPos (n : Nat) (cl : List (List Nat)) : Option Nat :=
  match cl with
  | [] => none
  | c :: rest => if n ∈ c then some 0 else (firstPos n rest).map (· + 1)

/-- The `grouped` column produced by `cliques` for record `n` of
`df.index` (the `df.assign(grouped=grouped)` restriction to `df.index`
is expressed by the `n ∈ dfIndex` hypotheses of the theorems). -/
def cliquesGrouped (dfIndex : List Nat) (edges : List (Nat × Nat)) (n : Nat) :
    Option Nat :=
  groupedOf (maximalCliques (gNodes dfIndex edges) edges) n

/-- The records of `df.index` assigned group number `g`. -/
def groupMembers (dfIndex : List Nat) (edges : List (Nat × Nat)) (g : Nat) :
    List Nat :=
  dfIndex.filter (fun n => decide (cliquesGrouped dfIndex edges n = some g))

/-- Greedy order-preserving extension of node `n` to a maximal clique
inside the node list (proof-side construction used to show every node
of `H` lies in some enumerated maximal clique). -/
def extendAt (edges : List (Nat × Nat)) (n : Nat) : List Nat → List Nat
  | [] => []
  | m :: rest =>
      let acc := extendAt edges n rest
      if (m = n ∨ adjP edges m n) ∧ ∀ x ∈ acc, m = x ∨ adjP edges m x then
        m :: acc
      else acc

/-! ### Aggregator (`prop_for_groups` inside `aggregate_units`,
cleaning.py lines 206-228)

`prop_for_groups` merges the rows of one duplicate group into one
canonical row.  Nullable cells are `Option` values (`none` = `NaN`);
numeric cells are `ℚ`. -/

/-- One input record (row of the cleaned dataframe).  Default values
only ease the construction of concrete test rows. -/
structure Row where
  projectID : Nat := 0
  Name : Option String := none
  Country : Option String := none
  Fueltype : Option String := none
  Technology : Option String := none
  SetCol : Option String := none
  File : Option String := none
  Capacity : Option ℚ := none
  lat : Option ℚ := none
  lon : Option ℚ := none
  YearCommissioned : Option ℚ := none
  Duration : Option ℚ := none
  deriving DecidableEq, Repr

/-- One aggregated (canonical) output record. -/
structure AggRow where
  Name : Option String := none
  Country : Option String := none
  Fueltype : Option String := none
  Technology : Option String := none
  SetCol : Option String := none
  File : Option String := none
  Capacity : ℚ := 0
  lat : Option ℚ := none
  lon : Option ℚ := none
  YearCommissioned : Option ℚ := none
  projectID : List Nat := []
  Duration : Option ℚ := none
  deriving DecidableEq, Repr

/-- Number of occurrences of `a` in `xs`. -/
def cnt {α : Type} [DecidableEq α] (xs : List α) (a : α) : Nat :=
  (xs.filter (fun b => decide (b = a))).length

/-- One step of the scan realising `value_counts().index[0]`: keep the
current best unless the new element has a strictly larger count. -/
def modeStep {α : Type} [DecidableEq α] (xs : List α) (best : Option α) (c : α) :
    Option α :=
  match best with
  | none => some c
  | some b => if cnt xs b < cnt xs c then some c else some b

/-- `value_counts(...).index[0]`: the most frequent element of `xs`,
ties resolved in favour of the earlier element (pandas leaves the tie
order unspecified; no claim depends on a tie).  `none` for an empty
list (where the source raises `IndexError`). -/
def modeFirst {α : Type} [DecidableEq α] (xs : List α) : Option α :=
  xs.foldl (modeStep xs) none

/-- Mode with `dropna=False` (the `Country`, `Fueltype`, `Technology`,
`Set` and `File` aggregations): null cells take part in the count. -/
def modeKeepNA (xs : List (Option String)) : Option String :=
  (modeFirst xs).getD none

/-- Mode with the default `dropna=True` (the `Name` aggregation): null
cells are removed before counting. -/
def modeDropNA (xs : List (Option String)) : Option String :=
  modeFirst (xs.filterMap id)

/-- `(x.Duration * x.Capacity / x.Capacity.sum()).sum()` over the
(Capacity, Duration) pairs of a group: `x.Capacity.sum()` skips nulls,
each product with a null factor is `NaN` and is skipped by the outer
sum.  A zero capacity total makes the float division non-finite; the
result is modelled as null (spec section 4.5: undefined/null). -/
def durationWeighted (rows : List (Option ℚ × Option ℚ)) : Option ℚ :=
  let capSum := (rows.filterMap Prod.fst).sum
  if capSum = 0 then none
  else
    some ((rows.filterMap (fun p =>
      match p with
      | (some c, some d) => some (d * c / capSum)
      | _ => none)).sum)

/-- `astype(float).mean()`: arithmetic mean of the non-null cells,
null if there are none. -/
def optMean (xs : List (Option ℚ)) : Option ℚ :=
  let vs := xs.filterMap id
  if vs.length = 0 then none else some (vs.sum / vs.length)

/-- `prop_for_groups`: aggregation of the rows `x` of one group.
`durInTarget` models `'Duration' in target_columns()` (a config flag),
`hasDurCol` models `'Duration' in x` (column presence); when the
`Duration` key is absent or set to `np.nan` the field is null. -/
def prop_for_groups (durInTarget hasDurCol : Bool) (x : List Row) : AggRow where
  Name := modeDropNA (x.map Row.Name)
  Country := modeKeepNA (x.map Row.Country)
  Fueltype := modeKeepNA (x.map Row.Fueltype)
  Technology := modeKeepNA (x.map Row.Technology)
  SetCol := modeKeepNA (x.map Row.SetCol)
  File := modeKeepNA (x.map Row.File)
  Capacity := (x.map (fun r => r.Capacity.getD 0)).sum
  lat := optMean (x.map Row.lat)
  lon := optMean (x.map Row.lon)
  YearCommissioned := (x.map Row.YearCommissioned).filterMap id |>.min?
  projectID := x.map Row.projectID
  Duration :=
    if durInTarget && hasDurCol then
      durationWeighted (x.map (fun r => (r.Capacity, r.Duration)))
    else none

/-- The post-aggregation normalisation `df['Duration'] =
df['Duration'].replace(0., np.nan)` of `aggregate_units`, applied
per aggregated row. -/
def durationZeroToNA (a : AggRow) : AggRow :=
  { a with Duration := if a.Duration = some 0 then none else a.Duration }

/-! ### Name Normalizer (`clean_powerplantname`, cleaning.py lines 33-74)

The regex pipeline is embedded at token level: the first `replace`
turns punctuation, brackets and digits into spaces, so afterwards the
string is exactly its whitespace-separated tokens; each removal
pattern `(?i)(^|\s)w(?=\s|$)` deletes whole-word (for multi-word
fillers: consecutive-word) case-insensitive occurrences; `\s+ -> ' '`,
`strip` and the join of the remaining tokens coincide.  A null Name
survives the initial `replace` as `NaN`, and then
`sum(name.str.split(), [])` raises `TypeError` (`list + float`), which
the embedding models as an error result. -/

/-- Characters replaced by a space by the first `replace` call: the
dash, slash and comma characters plus the escaped bracket classes and
`[0-9]`. -/
def charNoise (c : Char) : Bool :=
  c = '-' || c = '/' || c = ',' || c = '(' || c = ')' || c = '[' ||
    c = ']' || c = '+' || c.isDigit

def replaceNoise (s : String) : String :=
  s.map (fun c => if charNoise c then ' ' else c)

/-- `str.split()`: whitespace-separated tokens. -/
def tokensOf (s : String) : List String :=
  (s.split (fun c => c = ' ')).filter (fun t => decide (t ≠ ""))

/-- A removal pattern: either the character class `(?i)[a-z]` (a single
letter) or a literal (possibly multi-word) filler, stored lowercased. -/
inductive NPat where
  | letter : NPat
  | phrase (ws : List String) : NPat
  deriving DecidableEq, Repr

/-- The fixed domain filler words of `clean_powerplantname` (the
pattern list entries after `'[a-z]'`), in source order. -/
def fixedFillers : List String :=
  ["I", "II", "III", "IV", "V", "VI", "VII", "VIII", "IX", "X", "XI",
   "Grupo", "parque", "eolico", "gas", "biomasa", "COGENERACION", "gt",
   "unnamed", "tratamiento de purines", "planta", "de", "la", "station",
   "power", "storage", "plant", "stage", "pumped", "project", "dt",
   "gud", "hkw", "kbr", "Kernkraft", "Kernkraftwerk", "kwg", "krb",
   "ohu", "gkn", "Gemeinschaftskernkraftwerk", "kki", "kkp", "kle",
   "wkw", "rwe", "bis", "nordsee", "ostsee", "dampfturbinenanlage",
   "ikw", "kw", "kohlekraftwerk", "raffineriekraftwerk"]

def patOfWord (w : String) : NPat :=
  .phrase ((w.toLower.split (fun c => c = ' ')).filter (fun t => decide (t ≠ "")))

def fixedPats : List NPat := NPat.letter :: fixedFillers.map patOfWord

/-- Does the lowercased head of `toks` equal the phrase `ws`? -/
def phraseAtHead (ws toks : List String) : Bool :=
  decide ((toks.take ws.length).map String.toLower = ws)

/-- Remove every (consecutive-token, case-insensitive) occurrence of the
phrase `ws` from a token list, as the global regex replace does. -/
def stripPhrase (ws : List String) : List String → List String
  | [] => []
  | t :: ts =>
      if ws ≠ [] ∧ phraseAtHead ws (t :: ts) = true then
        stripPhrase ws (ts.drop (ws.length - 1))
      else
        t :: stripPhrase ws ts
termination_by l => l.length
decreasing_by
  all_goals simp [List.length_drop]
  omega

/-- Is the token a single ASCII letter (matched by `(?i)[a-z]`)? -/
def isAsciiLetterTok (t : String) : Bool :=
  match t.toList with
  | [c] => c.isAlpha
  | _ => false

def stripPat (p : NPat) (toks : List String) : List String :=
  match p with
  | .letter => toks.filter (fun t => !(isAsciiLetterTok t))
  | .phrase ws => stripPhrase ws toks

/-- Sequential application of the removal patterns (the patterns of the
source's `pattern` list, in order). -/
def cleanTokens (pats : List NPat) (toks : List String) : List String :=
  pats.foldl (fun acc p => stripPat p acc) toks

/-- Python `str.capitalize` (pandas `.str.capitalize()`): first
character upper-cased, the rest lower-cased. -/
def pyCapitalize (s : String) : String := s.toLower.capitalize

/-- The Name-column transformation of `clean_powerplantname` up to (and
including) the per-name cleaning: noise characters to spaces, batch
common-word counting (`value_counts`, threshold 20; the order of equal
counts is unspecified in pandas and modelled as first occurrence),
pattern removal, whitespace collapapse/strip and capitalisation.  Any
null Name makes `sum(name.str.split(), [])` raise `TypeError`. -/
def cleanNamesCol (names : List (Option String)) : Except String (List String) :=
  if names.any (fun o => o.isNone) then
    .error "TypeError: can only concatenate list to list"
  else
    let pre := (names.filterMap id).map replaceNoise
    let allToks := (pre.map tokensOf).flatten
    let cw := allToks.dedup.filter (fun t => decide (20 ≤ cnt allToks t))
    let pats := cw.map patOfWord ++ fixedPats
    .ok (pre.map (fun s =>
      pyCapitalize (String.intercalate " " (cleanTokens pats (tokensOf s)))))

/-- Rows of `df.assign(Name=name).loc[lambda x: x.Name != '']`: each
row with its cleaned name, rows with an empty cleaned name dropped. -/
def cleanedRowsPre (df : List Row) (cs : List String) : List Row :=
  ((df.zip cs).map (fun p => { p.1 with Name := some p.2 })).filter
    (fun r => decide (r.Name ≠ some ""))

/-- `clean_powerplantname` on an input-schema frame: clean the Name
column, drop rows whose cleaned Name is empty, sort by Name
(`sort_values('Name')`; `reset_index(drop=True)` is implicit in the
positional list representation). -/
def clean_powerplantname (df : List Row) : Except String (List Row) :=
  match cleanNamesCol (df.map Row.Name) with
  | .error e => .error e
  | .ok cs => .ok ((cleanedRowsPre df cs).mergeSort
      (fun a b => decide (a.Name.getD "" ≤ b.Name.getD "")))

/-- The same filter step on the aggregated-schema frame (the second
call site of `clean_powerplantname`, inside `aggregate_units`). -/
def cleanedRowsPreAgg (df : List AggRow) (cs : List String) : List AggRow :=
  ((df.zip cs).map (fun p => { p.1 with Name := some p.2 })).filter
    (fun r => decide (r.Name ≠ some ""))

/-- `clean_powerplantname` applied to the aggregated frame. -/
def clean_powerplantnameAgg (df : List AggRow) : Except String (List AggRow) :=
  match cleanNamesCol (df.map AggRow.Name) with
  | .error e => .error e
  | .ok cs => .ok ((cleanedRowsPreAgg df cs).mergeSort
      (fun a b => decide (a.Name.getD "" ≤ b.Name.getD "")))

/-! ### Pipeline (`aggregate_units` lines 185-259 and `clean_single`
lines 262-319)

External effects are explicit parameters: `duke` is the external
matcher; `cache` is the saved-aggregation file (`some gs` = readable
content, `none` = the read raised `ValueError` or `IOError`, which is
caught); the persistence attempt `df.grouped.to_csv(path_name)` has
three outcomes, of which only `IndexError` is caught by the source's
`try` block. -/

/-- Outcome of the `to_csv` persistence attempt. -/
inductive WriteOutcome where
  | success : WriteOutcome
  | indexError : WriteOutcome
  | ioError : WriteOutcome
  deriving DecidableEq, Repr

/-- The `try: df.grouped.to_csv(path_name) except IndexError: pass`
block: success and `IndexError` continue; any other exception (for
example an `IOError` from the filesystem) propagates. -/
def persistGroups (w : WriteOutcome) : Except String Unit :=
  match w with
  | .success => .ok ()
  | .indexError => .ok ()
  | .ioError => .error "IOError: to_csv failed"

/-- The group keys `df.groupby('grouped')` iterates, ascending (pandas
sorts group keys); rows with a null group are dropped by `groupby`. -/
def groupKeys (gs : List (Option Nat)) : List Nat :=
  ((gs.filterMap id).dedup).mergeSort (fun a b => decide (a ≤ b))

/-- The member rows of group `k` (positional alignment of the `grouped`
column with the frame). -/
def rowsOfGroup (df : List Row) (gs : List (Option Nat)) (k : Nat) : List Row :=
  ((df.zip gs).filter (fun p => decide (p.2 = some k))).map Prod.fst

/-- `df.groupby('grouped').apply(prop_for_groups)` followed by the
Duration zero-to-null normalisation (only when the frame has a
Duration column, i.e. `durInTarget`) and the final
`clean_powerplantname` pass.  The concluding `target_columns`
selection only fixes the column order of the already-fixed `AggRow`
schema. -/
def aggregateGroups (durInTarget hasDurCol : Bool) (df : List Row)
    (gs : List (Option Nat)) : Except String (List AggRow) :=
  let aggs := (groupKeys gs).map (fun k =>
    prop_for_groups durInTarget hasDurCol (rowsOfGroup df gs k))
  let aggs2 := if durInTarget then aggs.map durationZeroToNA else aggs
  clean_powerplantnameAgg aggs2

/-- `aggregate_units`: use the cached assignment when requested and
readable; otherwise run duke and `cliques` over the positional index
`range df.length`, attempt to persist, and aggregate. -/
def aggregate_units_model (duke : List Row → List (Nat × Nat))
    (cache : Option (List (Option Nat))) (wr : WriteOutcome)
    (use_saved durInTarget hasDurCol : Bool) (df : List Row) :
    Except String (List AggRow) :=
  let cached : Option (List (Option Nat)) := if use_saved then cache else none
  match cached with
  | some gs => aggregateGroups durInTarget hasDurCol df gs
  | none =>
      let dups := duke df
      let gs := (List.range df.length).map
        (fun i => cliquesGrouped (List.range df.length) dups i)
      do
        let _ ← persistGroups wr
        aggregateGroups durInTarget hasDurCol df gs

/-- `clean_single`: the configuration guard, then name cleaning, then
either aggregation (left result) or the raw branch (right result).
The concluding Technology Canonicalizer (`clean_technology`) and, in
the raw branch, the wrap of each projectID into a singleton list, are
modelled by the opaque column transforms `techClean` and
`techCleanRaw`; no claim concerns their content. -/
def clean_single_model (duke : List Row → List (Nat × Nat))
    (cache : Option (List (Option Nat))) (wr : WriteOutcome)
    (techClean : List AggRow → List AggRow)
    (techCleanRaw : List Row → List Row) (dataset_name : Option String)
    (aggregate_powerplant_units use_saved durInTarget hasDurCol : Bool)
    (df : List Row) : Except String (List AggRow ⊕ List Row) :=
  if aggregate_powerplant_units && use_saved && dataset_name.isNone then
    .error "ValueError: aggregate_powerplant_units is True but no dataset_name was given"
  else do
    let df1 ← clean_powerplantname df
    if aggregate_powerplant_units then do
      let out ← aggregate_units_model duke cache wr use_saved durInTarget
        hasDurCol df1
      return Sum.inl (techClean out)
    else
      return Sum.inr (techCleanRaw df1)

/-! ### Attribute Classifier (`gather_fueltype_info` lines 77-85,
`gather_technology_info` lines 89-109, `gather_set_info` lines
112-132)

pandas memory model: a `Store` is a heap of column buffers addressed
by position, a `Frame` maps column names to buffer addresses.
`df['col']` shares the column's buffer, and `pd.Series(df['Fueltype'])`
(line 78) does not copy either, so the masked assignment
`fueltype.loc[mask] = 'Lignite'` (line 82) writes through into the
caller's column buffer.  By contrast `df['Technology'].dropna()`
(line 90) and `df['Set'].copy()` (line 113) produce fresh data, and
`df.assign(...)` allocates a fresh buffer for the column of the
returned frame.  The `inplace=True` `replace` of line 83 rebinds the
local series to fresh renamed data (an `_update_inplace` of the series
object); the theorems below avoid the one cell class - an unmatched
`'Coal'` cell - whose caller-visible value would differ if a pandas
version wrote that rename through as well. -/

/-- A column buffer of nullable text cells. -/
abbrev Buf := List (Option String)

/-- The heap of column buffers. -/
abbrev Store := List Buf

/-- Buffer addresses of the columns the three classifiers touch;
`setB` is `none` when the frame has no Set column. -/
structure Frame where
  nameB : Nat
  fueltypeB : Nat
  technologyB : Nat
  setB : Option Nat
  deriving DecidableEq, Repr

def readCol (s : Store) (b : Nat) : Buf := s.getD b []

/-- Is `pat` a prefix of `hay`? -/
def listPre (pat hay : List Char) : Bool :=
  match pat, hay with
  | [], _ => true
  | _ :: _, [] => false
  | c :: cs, d :: ds => c = d && listPre cs ds

/-- Does `hay` contain `pat` as a contiguous sublist? -/
def listSub (hay pat : List Char) : Bool :=
  match hay with
  | [] => pat.isEmpty
  | _ :: rest => listPre pat hay || listSub rest pat

/-- Case-insensitive substring test (`str.contains` with a `(?i)` or
`case=False` pattern; each alternation is mapped to a disjunction over
its lowercase alternatives). -/
def containsCI (t pat : String) : Bool :=
  listSub (t.toList.map Char.toLower) (pat.toList.map Char.toLower)

/-- Mask of `df[i].dropna().str.contains('(?i)lignite|brown')`
reindexed with `fill_value=False`: null cells are `false`. -/
def ligniteMask (col : Buf) : List Bool :=
  col.map (fun o =>
    match o with
    | some t => containsCI t "lignite" || containsCI t "brown"
    | none => false)

/-- `series.loc[mask] = v` on the buffer at address `b`: an in-place
masked overwrite of the shared buffer. -/
def writeMasked (s : Store) (b : Nat) (mask : List Bool) (v : String) : Store :=
  s.set b (List.zipWith (fun m o => if m then some v else o) mask (s.getD b []))

/-- `gather_fueltype_info`: `fueltype = pd.Series(df['Fueltype'])`
aliases the Fueltype buffer; the loop over `search_col=['Name',
'Technology']` writes `'Lignite'` through it at each matched row; the
`Coal -> Hard Coal` rename and the final `df.assign` produce the fresh
buffer of the returned frame. -/
def gather_fueltype_info (s : Store) (f : Frame) : Store × Frame :=
  let s1 := writeMasked s f.fueltypeB (ligniteMask (readCol s f.nameB)) "Lignite"
  let s2 := writeMasked s1 f.fueltypeB
    (ligniteMask (readCol s1 f.technologyB)) "Lignite"
  let vals := (readCol s2 f.fueltypeB).map
    (fun o => if o = some "Coal" then some "Hard Coal" else o)
  (s2 ++ [vals], { f with fueltypeB := s2.length })

/-- `str.findall(pattern).loc[len > 0].str.join(', ')` for one cell:
the matched technology keywords joined with a comma, null when none
match (`findall` reports occurrences in text order with multiplicity;
the embedding lists each matching keyword once, in vocabulary order -
no claim depends on the joined content). -/
def findTech (pats : List String) (t : String) : Option String :=
  let hits := pats.filter (fun p => containsCI t p)
  if hits.isEmpty then none else some (String.intercalate ", " hits)

/-- Merge of the per-column findings into the technology series:
existing entries get the finding appended with `', '`
(`str.cat(..., sep=', ')`), new entries are appended
(`technology.append(found[new_i])`). -/
def techCombine (tv fv : Option String) : Option String :=
  match fv with
  | none => tv
  | some found =>
      match tv with
      | some old => some (old ++ ", " ++ found)
      | none => some found

/-- `gather_technology_info`: starts from a fresh copy
(`df['Technology'].dropna()`), accumulates findings from
`search_col=['Name', 'Fueltype']` and assigns a fresh buffer. -/
def gather_technology_info (pats : List String) (s : Store) (f : Frame) :
    Store × Frame :=
  let t0 := readCol s f.technologyB
  let t1 := List.zipWith techCombine t0
    ((readCol s f.nameB).map (fun o => o.bind (fun t => findTech pats t)))
  let t2 := List.zipWith techCombine t1
    ((readCol s f.fueltypeB).map (fun o => o.bind (fun t => findTech pats t)))
  (s ++ [t2], { f with technologyB := s.length })

def chpWords : List String :=
  ["heizkraftwerk", "hkw", "chp", "bhkw", "cogeneration",
   "power and heat", "heat and power"]

def storeWords : List String := ["battery", "storage"]

/-- Mask of `df[i].dropna().str.contains(pattern, case=False)`
reindexed and `fillna(False)`. -/
def anyWordMask (ws : List String) (col : Buf) : List Bool :=
  col.map (fun o =>
    match o with
    | some t => ws.any (fun w => containsCI t w)
    | none => false)

def applyMask (cur : Buf) (mask : List Bool) (v : String) : Buf :=
  List.zipWith (fun m o => if m then some v else o) mask cur

/-- `gather_set_info`: starts from `df['Set'].copy()` (or an all-null
series when the column is absent), applies the CHP masks over
`search_col=['Name', 'Fueltype', 'Technology']`, then the Store masks
(which therefore win on overlap), assigns a fresh buffer and fills
remaining nulls with `'PP'`. -/
def gather_set_info (s : Store) (f : Frame) : Store × Frame :=
  let s0 : Buf :=
    match f.setB with
    | some b => readCol s b
    | none => (readCol s f.nameB).map (fun _ => none)
  let s1 := applyMask s0 (anyWordMask chpWords (readCol s f.nameB)) "CHP"
  let s2 := applyMask s1 (anyWordMask chpWords (readCol s f.fueltypeB)) "CHP"
  let s3 := applyMask s2 (anyWordMask chpWords (readCol s f.technologyB)) "CHP"
  let s4 := applyMask s3 (anyWordMask storeWords (readCol s f.nameB)) "Store"
  let s5 := applyMask s4 (anyWordMask storeWords (readCol s f.fueltypeB)) "Store"
  let s6 := applyMask s5 (anyWordMask storeWords (readCol s f.technologyB)) "Store"
  let s7 := s6.map (fun o => if o = none then some "PP" else o)
  (s ++ [s7], { f with setB := some s.length })

end PPM

namespace PPM

theorem adjP_symm {edges : List (Nat × Nat)} {u v : Nat} (h : adjP edges u v) :
    adjP edges v u :=
  ⟨fun e => h.1 e.symm, h.2.2, h.2.1⟩

theorem getD_mem_of_lt {α : Type} {l : List α} {k : Nat} (h : k < l.length)
    (d : α) : l.getD k d ∈ l := by
  rw [List.getD_eq_getElem l d h]
  exact List.getElem_mem h

theorem extendAt_cons (edges : List (Nat × Nat)) (n m : Nat) (rest : List Nat) :
    extendAt edges n (m :: rest) =
      if (m = n ∨ adjP edges m n) ∧
          ∀ x ∈ extendAt edges n rest, m = x ∨ adjP edges m x then
        m :: extendAt edges n rest
      else extendAt edges n rest := rfl

theorem extendAt_sublist (edges : List (Nat × Nat)) (n : Nat) (l : List Nat) :
    (extendAt edges n l).Sublist l := by
  induction l with
  | nil => simp [extendAt]
  | cons m rest ih =>
      simp only [extendAt]
      split
      · exact ih.cons₂ m
      · exact ih.cons m

theorem extendAt_adjacent (edges : List (Nat × Nat)) (n : Nat) (l : List Nat) :
    ∀ x ∈ extendAt edges n l, x = n ∨ adjP edges x n := by
  induction l with
  | nil => simp [extendAt]
  | cons m rest ih =>
      simp only [extendAt]
      split
      · rename_i hcond
        intro x hx
        rcases List.mem_cons.mp hx with rfl | hx'
        · exact hcond.1
        · exact ih x hx'
      · exact ih

theorem extendAt_mem (edges : List (Nat × Nat)) (n : Nat) (l : List Nat)
    (hnd : l.Nodup) (hn : n ∈ l) : n ∈ extendAt edges n l := by
  induction l with
  | nil => cases hn
  | cons m rest ih =>
      have hndr : rest.Nodup := (List.nodup_cons.mp hnd).2
      have hmr : m ∉ rest := (List.nodup_cons.mp hnd).1
      rcases List.mem_cons.mp hn with rfl | hn'
      · rw [extendAt_cons]
        have hcond : (n = n ∨ adjP edges n n) ∧
            ∀ x ∈ extendAt edges n rest, n = x ∨ adjP edges n x := by
          refine ⟨Or.inl rfl, fun x hx => ?_⟩
          rcases extendAt_adjacent edges n rest x hx with rfl | hadj
          · exact absurd ((extendAt_sublist edges x rest).mem hx) hmr
          · exact Or.inr (adjP_symm hadj)
        rw [if_pos hcond]
        exact List.mem_cons_self _ _
      · have hmem := ih hndr hn'
        rw [extendAt_cons]
        split
        · exact List.mem_cons_of_mem _ hmem
        · exact hmem

theorem extendAt_clique (edges : List (Nat × Nat)) (n : Nat) (l : List Nat) :
    isClique edges (extendAt edges n l) := by
  induction l with
  | nil => intro u hu; simp [extendAt] at hu
  | cons m rest ih =>
      simp only [extendAt]
      split
      · rename_i hcond
        intro u hu v hv
        rcases List.mem_cons.mp hu with rfl | hu' <;>
          rcases List.mem_cons.mp hv with rfl | hv'
        · exact Or.inl rfl
        · exact hcond.2 v hv'
        · rcases hcond.2 u hu' with rfl | hadj
          · exact Or.inl rfl
          · exact Or.inr (adjP_symm hadj)
        · exact ih u hu' v hv'
      · exact ih

theorem extendAt_reject (edges : List (Nat × Nat)) (n : Nat) (l : List Nat)
    (m : Nat) (hm : m ∈ l) (hnot : m ∉ extendAt edges n l)
    (hcompat : m = n ∨ adjP edges m n) :
    ∃ y ∈ extendAt edges n l, ¬ (m = y ∨ adjP edges m y) := by
  induction l with
  | nil => cases hm
  | cons m' rest ih =>
      rw [extendAt_cons] at hnot ⊢
      rcases List.mem_cons.mp hm with rfl | hm'
      · by_cases hcond : (m = n ∨ adjP edges m n) ∧
            ∀ x ∈ extendAt edges n rest, m = x ∨ adjP edges m x
        · rw [if_pos hcond] at hnot
          exact absurd (List.mem_cons_self _ _) hnot
        · rw [if_neg hcond] at hnot ⊢
          push_neg at hcond
          obtain ⟨y, hy, hny⟩ := hcond hcompat
          exact ⟨y, hy, fun hor => hor.elim hny.1 hny.2⟩
      · have hnot' : m ∉ extendAt edges n rest := by
          intro hc
          apply hnot
          split
          · exact List.mem_cons_of_mem _ hc
          · exact hc
        obtain ⟨y, hy, hny⟩ := ih hm' hnot'
        refine ⟨y, ?_, hny⟩
        split
        · exact List.mem_cons_of_mem _ hy
        · exact hy

theorem extendAt_maximal (edges : List (Nat × Nat)) (n : Nat) (gN : List Nat)
    (hnd : gN.Nodup) (hn : n ∈ gN) :
    isMaxCliqueIn gN edges (extendAt edges n gN) := by
  refine ⟨extendAt_clique edges n gN, fun m hm hext => ?_⟩
  obtain ⟨hmnot, hadj⟩ := hext
  have hnmem : n ∈ extendAt edges n gN := extendAt_mem edges n gN hnd hn
  have hcompat : m = n ∨ adjP edges m n := Or.inr (hadj n hnmem)
  obtain ⟨y, hy, hny⟩ := extendAt_reject edges n gN m hm hmnot hcompat
  exact hny (Or.inr (hadj y hy))

theorem mem_maximalCliques {gN : List Nat} {edges : List (Nat × Nat)}
    {c : List Nat} :
    c ∈ maximalCliques gN edges ↔
      c.Sublist gN ∧ c ≠ [] ∧ isMaxCliqueIn gN edges c := by
  simp [maximalCliques, List.mem_filter, List.mem_sublists, and_assoc]

theorem exists_maxclique_mem (edges : List (Nat × Nat)) (gN : List Nat)
    (hnd : gN.Nodup) (n : Nat) (hn : n ∈ gN) :
    ∃ c ∈ maximalCliques gN edges, n ∈ c := by
  refine ⟨extendAt edges n gN, ?_, extendAt_mem edges n gN hnd hn⟩
  rw [mem_maximalCliques]
  exact ⟨extendAt_sublist edges n gN,
    List.ne_nil_of_mem (extendAt_mem edges n gN hnd hn),
    extendAt_maximal edges n gN hnd hn⟩

theorem assignCliques_eq_lastPos (cl : List (List Nat)) :
    ∀ (i : Nat) (g : Nat → Option Nat) (n : Nat),
      assignCliques i cl g n =
        match lastPos n cl with
        | some k => some (i + k)
        | none => g n := by
  induction cl with
  | nil => intro i g n; simp [assignCliques, lastPos]
  | cons c rest ih =>
      intro i g n
      simp only [assignCliques, lastPos]
      rw [ih]
      cases hrest : lastPos n rest with
      | some j =>
          simp only [hrest, Option.some.injEq]
          omega
      | none =>
          simp only [hrest]
          by_cases hnc : n ∈ c
          · simp [hnc]
          · simp [hnc]

theorem lastPos_isSome {n : Nat} {cl : List (List Nat)}
    (h : ∃ c ∈ cl, n ∈ c) : (lastPos n cl).isSome := by
  induction cl with
  | nil => obtain ⟨c, hc, _⟩ := h; cases hc
  | cons c rest ih =>
      simp only [lastPos]
      cases hrest : lastPos n rest with
      | some j => rfl
      | none =>
          obtain ⟨d, hd, hnd⟩ := h
          rcases List.mem_cons.mp hd with rfl | hd'
          · simp [hnd]
          · have := ih ⟨d, hd', hnd⟩
            rw [hrest] at this
            cases this

theorem lastPos_mem {n : Nat} {cl : List (List Nat)} {k : Nat}
    (h : lastPos n cl = some k) : k < cl.length ∧ n ∈ cl.getD k [] := by
  induction cl generalizing k with
  | nil => cases h
  | cons c rest ih =>
      simp only [lastPos] at h
      cases hrest : lastPos n rest with
      | some j =>
          rw [hrest] at h
          obtain rfl : j + 1 = k := by injection h
          obtain ⟨hlt, hmem⟩ := ih hrest
          exact ⟨Nat.succ_lt_succ hlt, by simpa using hmem⟩
      | none =>
          rw [hrest] at h
          by_cases hnc : n ∈ c
          · rw [if_pos hnc] at h
            obtain rfl : 0 = k := by injection h
            exact ⟨Nat.succ_pos _, by simpa using hnc⟩
          · rw [if_neg hnc] at h; cases h

theorem lastPos_last {n : Nat} {cl : List (List Nat)} {k : Nat}
    (h : lastPos n cl = some k) :
    ∀ j, k < j → j < cl.length → n ∉ cl.getD j [] := by
  induction cl generalizing k with
  | nil => cases h
  | cons c rest ih =>
      intro j hkj hjl
      simp only [lastPos] at h
      cases hrest : lastPos n rest with
      | some m =>
          rw [hrest] at h
          obtain rfl : m + 1 = k := by injection h
          obtain ⟨j', rfl⟩ : ∃ j', j = j' + 1 := ⟨j - 1, by omega⟩
          have := ih hrest j' (by omega) (by simpa using Nat.lt_of_succ_lt_succ hjl)
          simpa using this
      | none =>
          rw [hrest] at h
          by_cases hnc : n ∈ c
          · rw [if_pos hnc] at h
            obtain rfl : 0 = k := by injection h
            obtain ⟨j', rfl⟩ : ∃ j', j = j' + 1 := ⟨j - 1, by omega⟩
            intro hmem
            have : ∃ d ∈ rest, n ∈ d := by
              refine ⟨rest.getD j' [], getD_mem_of_lt ?_ [], by simpa using hmem⟩
              simpa using Nat.lt_of_succ_lt_succ hjl
            have := lastPos_isSome this
            rw [hrest] at this
            cases this
          · rw [if_neg hnc] at h; cases h

theorem groupedOf_eq (cl : List (List Nat)) (n : Nat) :
    groupedOf cl n = lastPos n cl := by
  unfold groupedOf
  rw [assignCliques_eq_lastPos]
  cases lastPos n cl with
  | some k => simp
  | none => rfl

theorem grouped_total (dfIndex : List Nat) (edges : List (Nat × Nat))
    (n : Nat) (hn : n ∈ dfIndex) :
    ∃ g, cliquesGrouped dfIndex edges n = some g := by
  have hmem : n ∈ gNodes dfIndex edges := by
    unfold gNodes
    exact List.mem_dedup.mpr (List.mem_append_left _ hn)
  obtain ⟨c, hc, hnc⟩ :=
    exists_maxclique_mem edges (gNodes dfIndex edges) (List.nodup_dedup _) n hmem
  unfold cliquesGrouped
  rw [groupedOf_eq]
  have := lastPos_isSome ⟨c, hc, hnc⟩
  cases h : lastPos n (maximalCliques (gNodes dfIndex edges) edges) with
  | some g => exact ⟨g, rfl⟩
  | none => rw [h] at this; cases this

theorem grouped_mem_clique {dfIndex : List Nat} {edges : List (Nat × Nat)}
    {n g : Nat} (h : cliquesGrouped dfIndex edges n = some g) :
    g < (maximalCliques (gNodes dfIndex edges) edges).length ∧
      n ∈ (maximalCliques (gNodes dfIndex edges) edges).getD g [] := by
  unfold cliquesGrouped at h
  rw [groupedOf_eq] at h
  exact lastPos_mem h

theorem grouped_same_clique {dfIndex : List Nat} {edges : List (Nat × Nat)}
    {m n g : Nat} (hm : cliquesGrouped dfIndex edges m = some g)
    (hn : cliquesGrouped dfIndex edges n = some g) :
    m = n ∨ adjP edges m n := by
  obtain ⟨hlt, hmem⟩ := grouped_mem_clique hm
  obtain ⟨_, hnem⟩ := grouped_mem_clique hn
  set cl := maximalCliques (gNodes dfIndex edges) edges with hcl
  have hcmem : cl.getD g [] ∈ cl := getD_mem_of_lt hlt []
  have hclique : isClique edges (cl.getD g []) :=
    (mem_maximalCliques.mp hcmem).2.2.1
  exact hclique m hmem n hnem

/-- C1: for every record set and every set of directed match edges, the
Duplicate-Group Resolver assigns every record identifier exactly one
group number; the groups are pairwise disjoint and their union is the
input identifier set; a record with no reciprocal edge forms a
singleton group; for an empty edge set every record is its own
group. -/
theorem cliques_partition (dfIndex : List Nat) (edges : List (Nat × Nat)) :
    (∀ n ∈ dfIndex, ∃ g, cliquesGrouped dfIndex edges n = some g)
    ∧ (∀ n g g', cliquesGrouped dfIndex edges n = some g →
        cliquesGrouped dfIndex edges n = some g' → g = g')
    ∧ (∀ g g' n, n ∈ groupMembers dfIndex edges g →
        n ∈ groupMembers dfIndex edges g' → g = g')
    ∧ (∀ n, n ∈ dfIndex ↔ ∃ g, n ∈ groupMembers dfIndex edges g)
    ∧ (∀ n ∈ dfIndex, (∀ m, ¬ adjP edges n m) →
        ∀ m ∈ dfIndex, cliquesGrouped dfIndex edges m =
          cliquesGrouped dfIndex edges n → m = n)
    ∧ (edges = [] → ∀ m ∈ dfIndex, ∀ n ∈ dfIndex,
        cliquesGrouped dfIndex edges m = cliquesGrouped dfIndex edges n →
          m = n) := by
  have hsingle : ∀ n ∈ dfIndex, (∀ m, ¬ adjP edges n m) →
      ∀ m ∈ dfIndex, cliquesGrouped dfIndex edges m =
        cliquesGrouped dfIndex edges n → m = n := by
    intro n hn hiso m hm heq
    obtain ⟨g, hg⟩ := grouped_total dfIndex edges n hn
    rw [hg] at heq
    rcases grouped_same_clique heq hg with h | hadj
    · exact h
    · exact absurd (adjP_symm hadj) (hiso m)
  refine ⟨grouped_total dfIndex edges, ?_, ?_, ?_, hsingle, ?_⟩
  · intro n g g' h h'
    rw [h] at h'
    injection h'
  · intro g g' n hg hg'
    have h1 : cliquesGrouped dfIndex edges n = some g := by
      simpa using (List.mem_filter.mp hg).2
    have h2 : cliquesGrouped dfIndex edges n = some g' := by
      simpa using (List.mem_filter.mp hg').2
    rw [h1] at h2
    injection h2
  · intro n
    constructor
    · intro hn
      obtain ⟨g, hg⟩ := grouped_total dfIndex edges n hn
      exact ⟨g, List.mem_filter.mpr ⟨hn, by simpa using hg⟩⟩
    · intro ⟨g, hg⟩
      exact List.mem_filter.mp hg |>.1
  · intro hedges m hm n hn heq
    refine hsingle n hn ?_ m hm heq
    intro m' hadj
    rw [hedges] at hadj
    cases hadj.2.1

/-- C1 witness: in a two-record set with no edges, record 5 is assigned
a group. -/
theorem cliques_partition_witness :
    ∃ g, cliquesGrouped [5, 6] [] 5 = some g :=
  (cliques_partition [5, 6] []).1 5 (by decide)

/-- C2 counterexample: with records 0, 1, 2 and reciprocal edges 0-1 and
1-2, the enumerated maximal cliques are [0, 1] (index 0) and [2, 1]
(index 1); record 1 belongs to both, yet its assigned group is 1, the
index of the last enumerated clique containing it, not the index 0 of
the first one as the claim states. -/
theorem cliques_first_wins_counterexample :
    1 ∈ (maximalCliques (gNodes [0, 1, 2] [(0, 1), (1, 0), (1, 2), (2, 1)])
          [(0, 1), (1, 0), (1, 2), (2, 1)]).getD 0 []
    ∧ 1 ∈ (maximalCliques (gNodes [0, 1, 2] [(0, 1), (1, 0), (1, 2), (2, 1)])
          [(0, 1), (1, 0), (1, 2), (2, 1)]).getD 1 []
    ∧ firstPos 1 (maximalCliques (gNodes [0, 1, 2] [(0, 1), (1, 0), (1, 2), (2, 1)])
          [(0, 1), (1, 0), (1, 2), (2, 1)]) = some 0
    ∧ cliquesGrouped [0, 1, 2] [(0, 1), (1, 0), (1, 2), (2, 1)] 1 = some 1 := by
  decide

/-- C2 amended: when a record belongs to more than one maximal clique,
its group number is the index of the LAST maximal clique containing it
in enumeration order (each enumeration step overwrites earlier
assignments), not the first. -/
theorem cliques_last_assignment (dfIndex : List Nat) (edges : List (Nat × Nat))
    (n j : Nat) (h : cliquesGrouped dfIndex edges n = some j) :
    j < (maximalCliques (gNodes dfIndex edges) edges).length
    ∧ n ∈ (maximalCliques (gNodes dfIndex edges) edges).getD j []
    ∧ ∀ k, j < k → k < (maximalCliques (gNodes dfIndex edges) edges).length →
        n ∉ (maximalCliques (gNodes dfIndex edges) edges).getD k [] := by
  unfold cliquesGrouped at h
  rw [groupedOf_eq] at h
  exact ⟨(lastPos_mem h).1, (lastPos_mem h).2, lastPos_last h⟩

/-- C2 amended witness: at the counterexample input, record 1's group 1
is the last clique containing it. -/
theorem cliques_last_assignment_witness :
    1 ∈ (maximalCliques (gNodes [0, 1, 2] [(0, 1), (1, 0), (1, 2), (2, 1)])
          [(0, 1), (1, 0), (1, 2), (2, 1)]).getD 1 [] :=
  (cliques_last_assignment [0, 1, 2] [(0, 1), (1, 0), (1, 2), (2, 1)] 1 1
    (by decide)).2.1

/-- C5: a directed edge asserted in only one direction is discarded by
the reciprocal reduction, so its two endpoints end up in different
groups. -/
theorem nonreciprocal_edge_separates (dfIndex : List Nat)
    (edges : List (Nat × Nat)) (A B : Nat) (hA : A ∈ dfIndex)
    (_hB : B ∈ dfIndex) (hne : A ≠ B) (_hAB : (A, B) ∈ edges)
    (hBA : (B, A) ∉ edges) :
    cliquesGrouped dfIndex edges A ≠ cliquesGrouped dfIndex edges B := by
  intro heq
  obtain ⟨g, hg⟩ := grouped_total dfIndex edges A hA
  rw [hg] at heq
  rcases grouped_same_clique hg heq.symm with h | hadj
  · exact hne h
  · exact hBA hadj.2.2

/-- C5 witness: with records 1, 2 and the single directed edge (1, 2),
records 1 and 2 get different groups. -/
theorem nonreciprocal_edge_separates_witness :
    cliquesGrouped [1, 2] [(1, 2)] 1 ≠ cliquesGrouped [1, 2] [(1, 2)] 2 :=
  nonreciprocal_edge_separates [1, 2] [(1, 2)] 1 2 (by decide) (by decide)
    (by decide) (by decide) (by decide)

theorem cnt_cons {α : Type} [DecidableEq α] (x : α) (xs : List α) (a : α) :
    cnt (x :: xs) a = if x = a then cnt xs a + 1 else cnt xs a := by
  by_cases h : x = a
  · simp [cnt, List.filter_cons, h]
  · simp [cnt, List.filter_cons, h]

theorem cnt_two_ne {α : Type} [DecidableEq α] (xs : List α) {a b : α}
    (h : a ≠ b) : cnt xs a + cnt xs b ≤ xs.length := by
  induction xs with
  | nil => simp [cnt]
  | cons x rest ih =>
      rw [cnt_cons, cnt_cons]
      simp only [List.length_cons]
      split_ifs with h1 h2 h3
      · exact absurd (h1.symm.trans h2) h
      · omega
      · omega
      · omega

theorem mem_of_cnt_pos {α : Type} [DecidableEq α] {xs : List α} {a : α}
    (h : 0 < cnt xs a) : a ∈ xs := by
  induction xs with
  | nil => simp [cnt] at h
  | cons x rest ih =>
      rw [cnt_cons] at h
      by_cases hxa : x = a
      · exact hxa ▸ List.mem_cons_self _ _
      · rw [if_neg hxa] at h
        exact List.mem_cons_of_mem _ (ih h)

theorem foldl_modeStep {α : Type} [DecidableEq α] (xs : List α) (a : α)
    (l : List α) : ∀ b : α, (b = a ∨ cnt xs b < cnt xs a) → (a ∈ l ∨ b = a) →
    (∀ c ∈ l, c = a ∨ cnt xs c < cnt xs a) →
    l.foldl (modeStep xs) (some b) = some a := by
  induction l with
  | nil =>
      intro b _ hal _
      rcases hal with h | rfl
      · cases h
      · rfl
  | cons c l' ih =>
      intro b hb hal hall
      have hc := hall c (List.mem_cons_self _ _)
      have hrest : ∀ d ∈ l', d = a ∨ cnt xs d < cnt xs a :=
        fun d hd => hall d (List.mem_cons_of_mem _ hd)
      simp only [List.foldl_cons]
      rcases hc with rfl | hclt
      · by_cases hlt : cnt xs b < cnt xs c
        · rw [show modeStep xs (some b) c = some c from by simp [modeStep, hlt]]
          exact ih c (Or.inl rfl) (Or.inr rfl) hrest
        · rw [show modeStep xs (some b) c = some b from by simp [modeStep, hlt]]
          rcases hb with rfl | hblt
          · exact ih b (Or.inl rfl) (Or.inr rfl) hrest
          · exact absurd hblt hlt
      · by_cases hlt : cnt xs b < cnt xs c
        · rw [show modeStep xs (some b) c = some c from by simp [modeStep, hlt]]
          refine ih c (Or.inr hclt) ?_ hrest
          rcases hal with hmem | rfl
          · rcases List.mem_cons.mp hmem with rfl | h
            · exact Or.inr rfl
            · exact Or.inl h
          · exact absurd (lt_trans hlt hclt) (lt_irrefl _)
        · rw [show modeStep xs (some b) c = some b from by simp [modeStep, hlt]]
          refine ih b hb ?_ hrest
          rcases hal with hmem | rfl
          · rcases List.mem_cons.mp hmem with rfl | h
            · exact absurd hclt (lt_irrefl _)
            · exact Or.inl h
          · exact Or.inr rfl

theorem modeFirst_unique_max {α : Type} [DecidableEq α] (xs : List α) (a : α)
    (ha : a ∈ xs) (hmax : ∀ b ∈ xs, b ≠ a → cnt xs b < cnt xs a) :
    modeFirst xs = some a := by
  cases xs with
  | nil => cases ha
  | cons x rest =>
      unfold modeFirst
      simp only [List.foldl_cons]
      rw [show modeStep (x :: rest) none x = some x from rfl]
      refine foldl_modeStep (x :: rest) a rest x ?_ ?_ ?_
      · by_cases hx : x = a
        · exact Or.inl hx
        · exact Or.inr (hmax x (List.mem_cons_self _ _) hx)
      · rcases List.mem_cons.mp ha with rfl | h
        · exact Or.inr rfl
        · exact Or.inl h
      · intro c hc
        by_cases h : c = a
        · exact Or.inl h
        · exact Or.inr (hmax c (List.mem_cons_of_mem _ hc) h)

theorem mode_majority {α : Type} [DecidableEq α] (xs : List α) (a : α)
    (h : xs.length < 2 * cnt xs a) : modeFirst xs = some a := by
  have hmem : a ∈ xs := by
    refine mem_of_cnt_pos (a := a) ?_
    by_contra hz
    push_neg at hz
    interval_cases hcnt : cnt xs a
    · simp at h
  refine modeFirst_unique_max xs a hmem ?_
  intro b hb hne
  have := cnt_two_ne xs hne
  omega

theorem sum_getD_eq_sum_filterMap (xs : List (Option ℚ)) :
    (xs.map (fun o => o.getD 0)).sum = (xs.filterMap id).sum := by
  induction xs with
  | nil => rfl
  | cons x rest ih =>
      cases x with
      | none => simpa using ih
      | some v => simpa using congrArg (v + ·) ih

/-- C6: the Aggregator's Capacity is the sum of the members' Capacity
values with null treated as 0 (`fillna(0.).sum()`), equivalently the
sum of the non-null capacities; members with Capacity
[100, null, 50] aggregate to 150. -/
theorem aggregator_capacity (durInTarget hasDurCol : Bool) :
    (∀ x : List Row, (prop_for_groups durInTarget hasDurCol x).Capacity
        = ((x.map Row.Capacity).filterMap id).sum)
    ∧ (prop_for_groups durInTarget hasDurCol
        [{ Capacity := some 100 }, {}, { Capacity := some 50 }]).Capacity
        = 150 := by
  constructor
  · intro x
    show (x.map (fun r => r.Capacity.getD 0)).sum = _
    rw [show x.map (fun r => r.Capacity.getD 0)
          = (x.map Row.Capacity).map (fun o => o.getD 0) from by
        simp [Function.comp]]
    exact sum_getD_eq_sum_filterMap _
  · show ((([{ Capacity := some 100 }, {}, { Capacity := some 50 }] : List Row)).map
        (fun r => r.Capacity.getD 0)).sum = 150
    norm_num

theorem durationWeighted_concrete :
    durationWeighted [(some (100 : ℚ), some (2 : ℚ)), (some 300, some 6)]
      = some 5 := by
  unfold durationWeighted
  simp only [List.filterMap_cons, List.filterMap_nil, List.sum_cons, List.sum_nil]
  norm_num

/-- C3 counterexample: for the two-member group with (Capacity,
Duration) pairs (100, 2) and (300, 6) the Aggregator's Duration is
(100*2 + 300*6)/400 = 5, not the 5.5 the claim states. -/
theorem aggregator_duration_counterexample :
    (durationZeroToNA (prop_for_groups true true
      [{ Name := some "Plant a", Capacity := some 100, Duration := some 2 },
       { Name := some "Plant b", Capacity := some 300, Duration := some 6 }])).Duration
      ≠ some ((11 : ℚ) / 2) := by
  simp [durationZeroToNA, prop_for_groups, durationWeighted_concrete]
  norm_num

/-- C3 amended: for the group with (Capacity, Duration) pairs (100, 2)
and (300, 6), the capacity-weighted Duration is
(100*2 + 300*6)/400 = 5. -/
theorem aggregator_duration_weighted :
    (durationZeroToNA (prop_for_groups true true
      [{ Name := some "Plant a", Capacity := some 100, Duration := some 2 },
       { Name := some "Plant b", Capacity := some 300, Duration := some 6 }])).Duration
      = some 5 := by
  simp [durationZeroToNA, prop_for_groups, durationWeighted_concrete]

/-- C4 counterexample: in a group whose Name cells are [null, null,
"a"], nulls are the majority (2 of 3), yet the aggregated Name is "a",
not null: the Name aggregation uses `value_counts()` with its default
`dropna=True`, so nulls are NOT included in the frequency count for
Name. -/
theorem aggregator_name_mode_counterexample :
    (prop_for_groups true true
      ([{}, {}, { Name := some "a" }] : List Row)).Name = some "a"
    ∧ cnt (([{}, {}, { Name := some "a" }] : List Row).map Row.Name) none = 2
    ∧ (([{}, {}, { Name := some "a" }] : List Row).map Row.Name).length = 3 := by
  decide

/-- C4 amended: Country, Fueltype, Technology, Set and source-File are
aggregated as the most frequent value with nulls included in the count
(`value_counts(dropna=False)`), so a majority-null group yields null
for each of those five fields; Name however is aggregated with nulls
excluded (`value_counts()` default), so the result is the most
frequent non-null Name. -/
theorem aggregator_mode_null_handling (durInTarget hasDurCol : Bool) :
    (∀ x : List Row, (x.map Row.Country).length
        < 2 * cnt (x.map Row.Country) none →
        (prop_for_groups durInTarget hasDurCol x).Country = none)
    ∧ (∀ x : List Row, (x.map Row.Fueltype).length
        < 2 * cnt (x.map Row.Fueltype) none →
        (prop_for_groups durInTarget hasDurCol x).Fueltype = none)
    ∧ (∀ x : List Row, (x.map Row.Technology).length
        < 2 * cnt (x.map Row.Technology) none →
        (prop_for_groups durInTarget hasDurCol x).Technology = none)
    ∧ (∀ x : List Row, (x.map Row.SetCol).length
        < 2 * cnt (x.map Row.SetCol) none →
        (prop_for_groups durInTarget hasDurCol x).SetCol = none)
    ∧ (∀ x : List Row, (x.map Row.File).length
        < 2 * cnt (x.map Row.File) none →
        (prop_for_groups durInTarget hasDurCol x).File = none)
    ∧ (∀ x : List Row, ∀ v : String,
        v ∈ (x.map Row.Name).filterMap id →
        (∀ w ∈ (x.map Row.Name).filterMap id, w ≠ v →
          cnt ((x.map Row.Name).filterMap id) w
            < cnt ((x.map Row.Name).filterMap id) v) →
        (prop_for_groups durInTarget hasDurCol x).Name = some v) := by
  refine ⟨fun x h => ?_, fun x h => ?_, fun x h => ?_, fun x h => ?_,
    fun x h => ?_, fun x v hv hmax => ?_⟩
  all_goals first
    | (show modeKeepNA _ = none
       unfold modeKeepNA
       rw [mode_majority _ none (by exact h)]
       rfl)
    | (show modeDropNA _ = some v
       unfold modeDropNA
       exact modeFirst_unique_max _ v hv hmax)

/-- C4 amended witness: a group with Country cells
[some "DE", null, null] aggregates Country to null. -/
theorem aggregator_mode_null_handling_witness :
    (prop_for_groups true true
      ([{ Country := some "DE" }, {}, {}] : List Row)).Country = none :=
  (aggregator_mode_null_handling true true).1
    ([{ Country := some "DE" }, {}, {}] : List Row) (by decide)

theorem any_isNone_iff (df : List Row) :
    (df.map Row.Name).any (fun o => o.isNone) = true ↔
      ∃ r ∈ df, r.Name = none := by
  simp [List.any_eq_true, Option.isNone_iff_eq_none]

/-- C10 counterexample: on a one-row record set whose Name is null,
`clean_powerplantname` raises a `TypeError` (from
`sum(name.str.split(), [])`, which adds the row's `NaN` to a list);
the null row neither passes the filter nor appears in any output, so
the claim that it passes through unchanged is false. -/
theorem clean_name_null_counterexample :
    clean_powerplantname [({ Name := none } : Row)]
      = .error "TypeError: can only concatenate list to list" := by
  rfl

/-- C10 amended: `clean_powerplantname` never returns a row whose Name
is null: (a) with no null Name it succeeds; (b) any null Name raises a
`TypeError` during common-word counting, so no row passes through; (c)
on success the output rows are, up to the Name sort, exactly the
cleaned rows whose cleaned Name is nonempty (only empty-named rows are
dropped), and no returned row has an empty Name. -/
theorem clean_powerplantname_spec (df : List Row) :
    ((∀ r ∈ df, r.Name ≠ none) → ∃ out, clean_powerplantname df = .ok out)
    ∧ ((∃ r ∈ df, r.Name = none) → clean_powerplantname df
        = .error "TypeError: can only concatenate list to list")
    ∧ (∀ out, clean_powerplantname df = .ok out →
        (∀ r ∈ out, r.Name ≠ some "")
        ∧ ∃ cs, cleanNamesCol (df.map Row.Name) = .ok cs
            ∧ out.Perm (cleanedRowsPre df cs)) := by
  refine ⟨?_, ?_, ?_⟩
  · intro hno
    have hfalse : ¬ ((df.map Row.Name).any (fun o => o.isNone) = true) := by
      rw [any_isNone_iff]
      rintro ⟨r, hr, hrn⟩
      exact hno r hr hrn
    unfold clean_powerplantname cleanNamesCol
    rw [if_neg hfalse]
    exact ⟨_, rfl⟩
  · intro hex
    have htrue : (df.map Row.Name).any (fun o => o.isNone) = true :=
      (any_isNone_iff df).mpr hex
    unfold clean_powerplantname cleanNamesCol
    rw [if_pos htrue]
  · intro out hout
    unfold clean_powerplantname at hout
    cases h : cleanNamesCol (df.map Row.Name) with
    | error e => rw [h] at hout; exact Except.noConfusion hout
    | ok cs =>
        rw [h] at hout
        have hout' : (cleanedRowsPre df cs).mergeSort
            (fun a b => decide (a.Name.getD "" ≤ b.Name.getD "")) = out := by
          injection hout
        have hperm : out.Perm (cleanedRowsPre df cs) :=
          hout' ▸ List.mergeSort_perm (cleanedRowsPre df cs) _
        refine ⟨?_, cs, rfl, hperm⟩
        intro r hr
        have hmem : r ∈ cleanedRowsPre df cs := hperm.mem_iff.mp hr
        have := List.of_mem_filter hmem
        simpa using this

/-- C10 amended witness: a one-row record set with the non-null Name
"Abc" is cleaned successfully. -/
theorem clean_powerplantname_spec_witness :
    ∃ out, clean_powerplantname [({ Name := some "Abc" } : Row)]
      = .ok out :=
  (clean_powerplantname_spec [{ Name := some "Abc" }]).1 (by decide)

/-- C7: whenever aggregation is enabled, cache use is requested and no
dataset name is given, `clean_single` raises the `ValueError`
immediately: the result is this error for every record set, every
matcher, every cache state and every persistence outcome, i.e. before
any cleaning, resolution or aggregation touches the data. -/
theorem clean_single_config_error (duke : List Row → List (Nat × Nat))
    (cache : Option (List (Option Nat))) (wr : WriteOutcome)
    (techClean : List AggRow → List AggRow)
    (techCleanRaw : List Row → List Row) (dataset_name : Option String)
    (agg us durInTarget hasDurCol : Bool) (df : List Row)
    (hagg : agg = true) (hus : us = true) (hname : dataset_name = none) :
    clean_single_model duke cache wr techClean techCleanRaw dataset_name
      agg us durInTarget hasDurCol df
      = .error "ValueError: aggregate_powerplant_units is True but no dataset_name was given" := by
  subst hagg hus hname
  rfl

/-- C7 witness: the guard fires at a concrete configuration. -/
theorem clean_single_config_error_witness :
    clean_single_model (fun _ => []) none .success id id none
      true true true true []
      = .error "ValueError: aggregate_powerplant_units is True but no dataset_name was given" :=
  clean_single_config_error (fun _ => []) none .success id id none
    true true true true [] rfl rfl rfl

unseal List.merge List.mergeSort stripPhrase in
/-- C8 counterexample: an `IOError` while persisting the freshly
computed group assignment aborts `aggregate_units` (only `IndexError`
is caught), even though the same run with a successful write produces
a canonical record set: persistence failures other than `IndexError`
do abort the pipeline. -/
theorem aggregate_units_persist_abort_counterexample :
    aggregate_units_model (fun _ => []) none .ioError false false false
      [({ Name := some "Abc", projectID := 3 } : Row)]
      = .error "IOError: to_csv failed"
    ∧ (aggregate_units_model (fun _ => []) none .success false false false
      [({ Name := some "Abc", projectID := 3 } : Row)]).isOk = true :=
  ⟨rfl, rfl⟩

/-- C8 amended: a persistence failure of the kind the source catches —
the `IndexError` raised for an empty result — does not abort
`aggregate_units`: for every input the run is identical to a run whose
persistence succeeded; any other write failure propagates (see the
counterexample). -/
theorem aggregate_units_indexError_harmless
    (duke : List Row → List (Nat × Nat))
    (cache : Option (List (Option Nat)))
    (use_saved durInTarget hasDurCol : Bool) (df : List Row) :
    aggregate_units_model duke cache .indexError use_saved durInTarget
      hasDurCol df
      = aggregate_units_model duke cache .success use_saved durInTarget
        hasDurCol df := by
  unfold aggregate_units_model
  cases use_saved <;> cases cache <;> rfl

theorem getD_set_self {α : Type} (l : List α) (i : Nat) (a d : α)
    (h : i < l.length) : (l.set i a).getD i d = a := by
  induction l generalizing i with
  | nil => simp at h
  | cons x xs ih =>
      cases i with
      | zero => rfl
      | succ j => simpa using ih j (Nat.lt_of_succ_lt_succ h)

theorem getD_set_ne {α : Type} (l : List α) {i j : Nat} (a d : α)
    (h : j ≠ i) : (l.set i a).getD j d = l.getD j d := by
  induction l generalizing i j with
  | nil => simp
  | cons x xs ih =>
      cases i with
      | zero =>
          cases j with
          | zero => exact absurd rfl h
          | succ k => rfl
      | succ i' =>
          cases j with
          | zero => rfl
          | succ k => simpa using ih (i := i') (fun e => h (congrArg Nat.succ e))

theorem zipWith_cell {α β γ : Type} (f : α → β → γ) (l1 : List α)
    (l2 : List β) (i : Nat) :
    (List.zipWith f l1 l2)[i]?
      = match l1[i]?, l2[i]? with
        | some a, some b => some (f a b)
        | _, _ => none := by
  induction l1 generalizing l2 i with
  | nil => simp
  | cons a as ih =>
      cases l2 with
      | nil => simp
      | cons b bs =>
          cases i with
          | zero => simp
          | succ j => simpa using ih bs j

theorem writeMasked_length (s : Store) (b : Nat) (mask : List Bool)
    (v : String) : (writeMasked s b mask v).length = s.length := by
  simp [writeMasked]

theorem readCol_writeMasked_self (s : Store) (b : Nat) (mask : List Bool)
    (v : String) (h : b < s.length) :
    readCol (writeMasked s b mask v) b
      = List.zipWith (fun m o => if m then some v else o) mask (readCol s b) := by
  unfold writeMasked readCol
  exact getD_set_self _ _ _ _ h

theorem readCol_writeMasked_ne (s : Store) {b b' : Nat} (mask : List Bool)
    (v : String) (h : b ≠ b') :
    readCol (writeMasked s b' mask v) b = readCol s b := by
  unfold writeMasked readCol
  exact getD_set_ne _ _ _ h

theorem readCol_append_lt (s : Store) (x : Buf) {b : Nat} (h : b < s.length) :
    readCol (s ++ [x]) b = readCol s b := by
  unfold readCol
  exact List.getD_append _ _ _ _ h

theorem readCol_append_len (s : Store) (x : Buf) :
    readCol (s ++ [x]) s.length = x := by
  unfold readCol
  rw [List.getD_append_right _ _ _ _ (Nat.le_refl _)]
  simp

theorem applyMask_cell_false (cur : Buf) (mask : List Bool) (v : String)
    (i : Nat) (h : mask[i]? = some false) :
    (applyMask cur mask v)[i]? = cur[i]? := by
  unfold applyMask
  rw [zipWith_cell, h]
  cases hc : cur[i]? <;> rfl

theorem getElem?_lt_of_eq_some {α : Type} {l : List α} {i : Nat} {a : α}
    (h : l[i]? = some a) : i < l.length := by
  by_contra hc
  push_neg at hc
  rw [List.getElem?_eq_none hc] at h
  cases h

theorem gather_fueltype_result (s : Store) (f : Frame)
    (hfb : f.fueltypeB < s.length) (htf : f.technologyB ≠ f.fueltypeB) :
    readCol (gather_fueltype_info s f).1 f.fueltypeB
      = List.zipWith (fun m o => if m then some "Lignite" else o)
          (ligniteMask (readCol s f.technologyB))
          (List.zipWith (fun m o => if m then some "Lignite" else o)
            (ligniteMask (readCol s f.nameB)) (readCol s f.fueltypeB)) := by
  unfold gather_fueltype_info
  simp only []
  have h1 : f.fueltypeB < (writeMasked s f.fueltypeB
      (ligniteMask (readCol s f.nameB)) "Lignite").length := by
    rw [writeMasked_length]; exact hfb
  have h2 : f.fueltypeB < (writeMasked (writeMasked s f.fueltypeB
      (ligniteMask (readCol s f.nameB)) "Lignite") f.fueltypeB
      (ligniteMask (readCol (writeMasked s f.fueltypeB
        (ligniteMask (readCol s f.nameB)) "Lignite") f.technologyB))
      "Lignite").length := by
    rw [writeMasked_length, writeMasked_length]; exact hfb
  rw [readCol_append_lt _ _ h2]
  rw [readCol_writeMasked_self _ _ _ _ h1]
  rw [readCol_writeMasked_self _ _ _ _ hfb]
  rw [readCol_writeMasked_ne _ _ _ htf]

theorem gather_fueltype_out (s : Store) (f : Frame)
    (hfb : f.fueltypeB < s.length) (htf : f.technologyB ≠ f.fueltypeB) :
    readCol (gather_fueltype_info s f).1 (gather_fueltype_info s f).2.fueltypeB
      = (List.zipWith (fun m o => if m then some "Lignite" else o)
          (ligniteMask (readCol s f.technologyB))
          (List.zipWith (fun m o => if m then some "Lignite" else o)
            (ligniteMask (readCol s f.nameB)) (readCol s f.fueltypeB))).map
          (fun o => if o = some "Coal" then some "Hard Coal" else o) := by
  unfold gather_fueltype_info
  simp only []
  have h1 : f.fueltypeB < (writeMasked s f.fueltypeB
      (ligniteMask (readCol s f.nameB)) "Lignite").length := by
    rw [writeMasked_length]; exact hfb
  rw [readCol_append_len]
  rw [readCol_writeMasked_self _ _ _ _ h1]
  rw [readCol_writeMasked_self _ _ _ _ hfb]
  rw [readCol_writeMasked_ne _ _ _ htf]

/-- C9 counterexample: `gather_fueltype_info` does NOT operate on a
copy.  On a one-row frame whose Name is "Lignite plant" and whose
Fueltype is null, the caller's Fueltype buffer (address 1 of the
store) holds 'Lignite' after the call: `pd.Series(df['Fueltype'])`
shares the column buffer and the masked assignment writes through it,
mutating the caller's data. -/
theorem classifier_mutation_counterexample :
    readCol (gather_fueltype_info
        [[some "Lignite plant"], [none], [none], [none]]
        (Frame.mk 0 1 2 (some 3))).1 1 = [some "Lignite"]
    ∧ readCol [[some "Lignite plant"], [none], [none], [none]] 1 = [none] := by
  decide

/-- C9 amended: Technology extraction and Set classification operate on
copies - every pre-existing buffer of the store is unchanged after the
call; Fueltype refinement leaves every buffer other than the Fueltype
column unchanged, but writes 'Lignite' through the caller's Fueltype
buffer at every record matched in a scanned column (the input IS
mutated there); in the returned record set, unmatched records retain
their prior values: the prior Fueltype (null stays null; the
unmatched-'Coal' rename aside), the prior Technology (null stays
null), and the prior Set with null defaulting to 'PP'. -/
theorem classifier_copy_and_retention :
    (∀ (pats : List String) (s : Store) (f : Frame) (b : Nat), b < s.length →
        readCol (gather_technology_info pats s f).1 b = readCol s b)
    ∧ (∀ (s : Store) (f : Frame) (b : Nat), b < s.length →
        readCol (gather_set_info s f).1 b = readCol s b)
    ∧ (∀ (s : Store) (f : Frame) (b : Nat), b < s.length → b ≠ f.fueltypeB →
        readCol (gather_fueltype_info s f).1 b = readCol s b)
    ∧ (∀ (s : Store) (f : Frame) (i : Nat),
        f.fueltypeB < s.length → f.technologyB ≠ f.fueltypeB →
        (readCol s f.nameB).length = (readCol s f.fueltypeB).length →
        (readCol s f.technologyB).length = (readCol s f.fueltypeB).length →
        (ligniteMask (readCol s f.nameB))[i]? = some true →
        (readCol (gather_fueltype_info s f).1 f.fueltypeB)[i]?
          = some (some "Lignite"))
    ∧ (∀ (s : Store) (f : Frame) (i : Nat),
        f.fueltypeB < s.length → f.technologyB ≠ f.fueltypeB →
        (ligniteMask (readCol s f.nameB))[i]? = some false →
        (ligniteMask (readCol s f.technologyB))[i]? = some false →
        (readCol s f.fueltypeB)[i]? ≠ some (some "Coal") →
        (readCol (gather_fueltype_info s f).1
            (gather_fueltype_info s f).2.fueltypeB)[i]?
          = (readCol s f.fueltypeB)[i]?)
    ∧ (∀ (s : Store) (f : Frame) (b i : Nat), f.setB = some b →
        (anyWordMask chpWords (readCol s f.nameB))[i]? = some false →
        (anyWordMask chpWords (readCol s f.fueltypeB))[i]? = some false →
        (anyWordMask chpWords (readCol s f.technologyB))[i]? = some false →
        (anyWordMask storeWords (readCol s f.nameB))[i]? = some false →
        (anyWordMask storeWords (readCol s f.fueltypeB))[i]? = some false →
        (anyWordMask storeWords (readCol s f.technologyB))[i]? = some false →
        ((readCol s b)[i]? = some none →
            (readCol (gather_set_info s f).1 s.length)[i]? = some (some "PP"))
        ∧ ∀ v : String, (readCol s b)[i]? = some (some v) →
            (readCol (gather_set_info s f).1 s.length)[i]? = some (some v))
    ∧ (∀ (pats : List String) (s : Store) (f : Frame) (i : Nat),
        ((readCol s f.nameB).map
          (fun o => o.bind (fun t => findTech pats t)))[i]? = some none →
        ((readCol s f.fueltypeB).map
          (fun o => o.bind (fun t => findTech pats t)))[i]? = some none →
        (readCol (gather_technology_info pats s f).1
            (gather_technology_info pats s f).2.technologyB)[i]?
          = (readCol s f.technologyB)[i]?) := by
  refine ⟨?_, ?_, ?_, ?_, ?_, ?_, ?_⟩
  · intro pats s f b hb
    unfold gather_technology_info
    simp only []
    exact readCol_append_lt _ _ hb
  · intro s f b hb
    unfold gather_set_info
    simp only []
    exact readCol_append_lt _ _ hb
  · intro s f b hb hne
    unfold gather_fueltype_info
    simp only []
    have hb2 : b < (writeMasked (writeMasked s f.fueltypeB
        (ligniteMask (readCol s f.nameB)) "Lignite") f.fueltypeB
        (ligniteMask (readCol (writeMasked s f.fueltypeB
          (ligniteMask (readCol s f.nameB)) "Lignite") f.technologyB))
        "Lignite").length := by
      rw [writeMasked_length, writeMasked_length]; exact hb
    rw [readCol_append_lt _ _ hb2]
    rw [readCol_writeMasked_ne _ _ _ hne, readCol_writeMasked_ne _ _ _ hne]
  · intro s f i hfb htf hlen1 hlen2 hm1
    rw [gather_fueltype_result s f hfb htf]
    have hilt : i < (ligniteMask (readCol s f.nameB)).length :=
      getElem?_lt_of_eq_some hm1
    have hio : i < (readCol s f.fueltypeB).length := by
      have := hilt
      rw [ligniteMask, List.length_map, hlen1] at this
      exact this
    have hit : i < (ligniteMask (readCol s f.technologyB)).length := by
      rw [ligniteMask, List.length_map, hlen2]
      exact hio
    have ho : (readCol s f.fueltypeB)[i]? = some ((readCol s f.fueltypeB)[i]) :=
      List.getElem?_eq_getElem hio
    have hinner : (List.zipWith (fun m o => if m then some "Lignite" else o)
        (ligniteMask (readCol s f.nameB)) (readCol s f.fueltypeB))[i]?
          = some (some "Lignite") := by
      rw [zipWith_cell, hm1, ho]
      rfl
    have hm2 : (ligniteMask (readCol s f.technologyB))[i]?
        = some ((ligniteMask (readCol s f.technologyB))[i]) :=
      List.getElem?_eq_getElem hit
    rw [zipWith_cell, hm2, hinner]
    cases (ligniteMask (readCol s f.technologyB))[i] <;> rfl
  · intro s f i hfb htf hm1 hm2 hcoal
    rw [gather_fueltype_out s f hfb htf]
    rw [List.getElem?_map]
    cases ho : (readCol s f.fueltypeB)[i]? with
    | none =>
        have hinner : (List.zipWith (fun m o => if m then some "Lignite" else o)
            (ligniteMask (readCol s f.nameB)) (readCol s f.fueltypeB))[i]?
              = none := by
          rw [zipWith_cell, hm1, ho]
        rw [zipWith_cell, hm2, hinner]
        rfl
    | some o =>
        have hone : o ≠ some "Coal" := by
          intro e
          exact hcoal (by rw [ho, e])
        have hinner : (List.zipWith (fun m o => if m then some "Lignite" else o)
            (ligniteMask (readCol s f.nameB)) (readCol s f.fueltypeB))[i]?
              = some o := by
          rw [zipWith_cell, hm1, ho]
          rfl
        rw [zipWith_cell, hm2, hinner]
        simp [hone]
  · intro s f b i hsb hc1 hc2 hc3 hs1 hs2 hs3
    have hout : readCol (gather_set_info s f).1 s.length
        = (applyMask (applyMask (applyMask (applyMask (applyMask (applyMask
            (readCol s b)
            (anyWordMask chpWords (readCol s f.nameB)) "CHP")
            (anyWordMask chpWords (readCol s f.fueltypeB)) "CHP")
            (anyWordMask chpWords (readCol s f.technologyB)) "CHP")
            (anyWordMask storeWords (readCol s f.nameB)) "Store")
            (anyWordMask storeWords (readCol s f.fueltypeB)) "Store")
            (anyWordMask storeWords (readCol s f.technologyB)) "Store").map
            (fun o => if o = none then some "PP" else o) := by
      unfold gather_set_info
      rw [hsb]
      simp only []
      exact readCol_append_len _ _
    have hchain : (applyMask (applyMask (applyMask (applyMask (applyMask
        (applyMask (readCol s b)
          (anyWordMask chpWords (readCol s f.nameB)) "CHP")
          (anyWordMask chpWords (readCol s f.fueltypeB)) "CHP")
          (anyWordMask chpWords (readCol s f.technologyB)) "CHP")
          (anyWordMask storeWords (readCol s f.nameB)) "Store")
          (anyWordMask storeWords (readCol s f.fueltypeB)) "Store")
          (anyWordMask storeWords (readCol s f.technologyB)) "Store")[i]?
        = (readCol s b)[i]? := by
      rw [applyMask_cell_false _ _ _ _ hs3, applyMask_cell_false _ _ _ _ hs2,
        applyMask_cell_false _ _ _ _ hs1, applyMask_cell_false _ _ _ _ hc3,
        applyMask_cell_false _ _ _ _ hc2, applyMask_cell_false _ _ _ _ hc1]
    constructor
    · intro hnull
      rw [hout, List.getElem?_map, hchain, hnull]
      rfl
    · intro v hv
      rw [hout, List.getElem?_map, hchain, hv]
      rfl
  · intro pats s f i hn hf
    have hout : readCol (gather_technology_info pats s f).1
        (gather_technology_info pats s f).2.technologyB
      = List.zipWith techCombine
          (List.zipWith techCombine (readCol s f.technologyB)
            ((readCol s f.nameB).map
              (fun o => o.bind (fun t => findTech pats t))))
          ((readCol s f.fueltypeB).map
            (fun o => o.bind (fun t => findTech pats t))) := by
      unfold gather_technology_info
      simp only []
      exact readCol_append_len _ _
    rw [hout]
    cases ht : (readCol s f.technologyB)[i]? with
    | none =>
        have hinner : (List.zipWith techCombine (readCol s f.technologyB)
            ((readCol s f.nameB).map
              (fun o => o.bind (fun t => findTech pats t))))[i]? = none := by
          rw [zipWith_cell, ht, hn]
        rw [zipWith_cell, hinner, hf]
    | some tv =>
        have hinner : (List.zipWith techCombine (readCol s f.technologyB)
            ((readCol s f.nameB).map
              (fun o => o.bind (fun t => findTech pats t))))[i]? = some tv := by
          rw [zipWith_cell, ht, hn]
          rfl
        rw [zipWith_cell, hinner, hf]
        rfl

/-- C9 amended witness: at the counterexample store, the matched
record's cell of the caller's Fueltype buffer holds 'Lignite' after
the call. -/
theorem classifier_copy_and_retention_witness :
    (readCol (gather_fueltype_info
        [[some "Lignite plant"], [none], [none], [none]]
        (Frame.mk 0 1 2 (some 3))).1 1)[0]? = some (some "Lignite") :=
  classifier_copy_and_retention.2.2.2.1
    [[some "Lignite plant"], [none], [none], [none]] (Frame.mk 0 1 2 (some 3)) 0
    (by decide) (by decide) (by decide) (by decide) (by decide)

end PPM
